import Mathlib

/-!
Verification development for the browservice bridge layer:
`src/http.cpp` (HTTP request rendezvous) and `src/download_manager.cpp`
(download ledger state machine).

The embedding is shallow: each C++ class's mutable state becomes a Lean
structure, each member function becomes a pure function from state to
state, and every side effect visible to a collaborator (CEF callback
invocation, posted notification, file unlink) is recorded as an element of
an output-event list.  A `CHECK`/`REQUIRE` assertion failure (process
abort) is modelled by returning `none`.
-/

namespace Browservice

/-! ## HTTP request rendezvous (`src/http.cpp`)

`HTTPRequest::Impl` holds a reference to the Poco request (we keep only the
method/URI snapshot it exposes), a one-shot promise for the responder
function, and the `responseSent_` flag.  The responder closure produced by
`sendResponse` is modelled by the record of the values it captures; its
observable effect when applied to a `Poco::Net::HTTPServerResponse` is
modelled by `applyResponder`.  The body-producing closure is modelled by
the text it writes to the output stream. -/

/-- The value `sendResponse` stores into the responder promise: the data
captured by the responder lambda (http.cpp lines 48-65). -/
structure HTTPResponder where
  status : Int
  contentType : String
  contentLength : Nat
  noCache : Bool
  body : String
deriving Repr, DecidableEq

/-- State of `HTTPRequest::Impl`: the request snapshot, the `responseSent_`
flag and the promise slot (`none` = promise not yet fulfilled, i.e. the
worker thread blocked in `responderFuture.get()` has not been released). -/
structure HTTPRequestImpl where
  requestMethod : String
  requestURI : String
  responseSent : Bool
  responderPromise : Option HTTPResponder
deriving Repr, DecidableEq

/-- Constructor `HTTPRequest::Impl::Impl`: `responseSent_(false)`, promise
empty. -/
def mkHTTPRequestImpl (method uri : String) : HTTPRequestImpl :=
  { requestMethod := method, requestURI := uri
    responseSent := false, responderPromise := none }

/-- `HTTPRequest::Impl::method`: `CHECK(!responseSent_)` then return the
method.  `none` models the `CHECK` abort. -/
def implMethod (s : HTTPRequestImpl) : Option String :=
  if s.responseSent then none else some s.requestMethod

/-- `HTTPRequest::Impl::path`: `CHECK(!responseSent_)` then return the URI. -/
def implPath (s : HTTPRequestImpl) : Option String :=
  if s.responseSent then none else some s.requestURI

/-- `HTTPRequest::Impl::sendResponse`: `CHECK(!responseSent_)`, set the
flag, fulfil the promise with the responder closure. -/
def implSendResponse (s : HTTPRequestImpl) (status : Int) (contentType : String)
    (contentLength : Nat) (body : String) (noCache : Bool) :
    Option HTTPRequestImpl :=
  if s.responseSent then none
  else some { s with
    responseSent := true
    responderPromise := some
      { status := status, contentType := contentType
        contentLength := contentLength, noCache := noCache, body := body } }

/-- `HTTPRequest::Impl::sendTextResponse`: content length is the byte size
of the text, content type is fixed, the body closure writes the text. -/
def implSendTextResponse (s : HTTPRequestImpl) (status : Int) (text : String)
    (noCache : Bool) : Option HTTPRequestImpl :=
  implSendResponse s status "text/plain; charset=UTF-8" text.utf8ByteSize text noCache

/-- `HTTPRequest::Impl::~Impl`: if no response was sent, send the fixed
fallback `sendTextResponse(500, "ERROR: Request handling failure\n", true)`
(which cannot hit its `CHECK` since `responseSent_` is false). -/
def implDestructor (s : HTTPRequestImpl) : HTTPRequestImpl :=
  if s.responseSent then s
  else (implSendTextResponse s 500 "ERROR: Request handling failure\n" true).getD s

/-- What the worker thread observes when it applies the responder to the
Poco response object (http.cpp lines 55-64): the headers added, the content
length set, and the bytes the body closure writes.  Note the lambda
captures `status` but never transfers it onto the Poco response, so the
wire-level record has no status field to set. -/
structure WireResponse where
  headers : List (String × String)
  contentLength : Nat
  bodyWritten : String
deriving Repr, DecidableEq

/-- Applying the responder closure to the response object. -/
def applyResponder (r : HTTPResponder) : WireResponse :=
  { headers :=
      [("Content-Type", r.contentType)] ++
      (if r.noCache then
        [("Cache-Control", "no-cache, no-store, must-revalidate"),
         ("Pragma", "no-cache"),
         ("Expires", "0")]
      else [])
    contentLength := r.contentLength
    bodyWritten := r.body }

/-! ## Download manager (`src/download_manager.cpp`)

`DownloadManager` owns `infos_ : std::map<uint32_t, DownloadInfo>`,
`pending_ : std::queue<uint32_t>` and `nextFileIdx_`.  The map is embedded
as an association list kept sorted by key ascending (the iteration order of
`std::map`); the queue as a list with its front at the head.  CEF callback
objects (`CefBeforeDownloadCallback`, `CefDownloadItemCallback`) are
identified by opaque numeric tokens supplied with the triggering event.
Collaborator-visible effects are recorded as `DMOut` events. -/

structure DownloadInfo where
  fileIdx : Nat
  name : String
  startCallback : Option Nat
  cancelCallback : Option Nat
  progress : Int
deriving Repr, DecidableEq

structure DMState where
  infos : List (Nat × DownloadInfo)
  pending : List Nat
  nextFileIdx : Nat
deriving Repr, DecidableEq

/-- `DownloadManager::DownloadManager`: empty ledger, `nextFileIdx_ = 1`. -/
def initDMState : DMState := { infos := [], pending := [], nextFileIdx := 1 }

/-- Observable effects of a ledger operation, in the order the code
performs them. -/
inductive DMOut where
  /-- `onPendingDownloadCountChanged(pending_.size())` posted. -/
  | pendingCount (n : Nat)
  /-- `onDownloadProgressChanged(progress)` posted. -/
  | progressList (l : List Int)
  /-- `startCallback->Continue(path, false)` invoked. -/
  | continueStart (cb : Nat) (path : String)
  /-- `cancelCallback->Cancel()` invoked. -/
  | cancelCb (cb : Nat)
  /-- `unlinkFile_(fileIdx)` (best-effort unlink of the temp file). -/
  | unlinkFile (fileIdx : Nat)
  /-- `onDownloadCompleted(file)` posted with a `CompletedDownload`
  handle carrying this path and name. -/
  | completed (path : String) (name : String)
deriving Repr, DecidableEq

/-- `std::map` lookup. -/
def mapFind (m : List (Nat × DownloadInfo)) (id : Nat) : Option DownloadInfo :=
  match m with
  | [] => none
  | (k, v) :: rest => if id = k then some v else mapFind rest id

/-- `std::map` insert-or-assign (`infos_[id] = ...`), keeping keys sorted
ascending as `std::map` iteration order does. -/
def mapInsert (id : Nat) (v : DownloadInfo) :
    List (Nat × DownloadInfo) → List (Nat × DownloadInfo)
  | [] => [(id, v)]
  | (k, w) :: rest =>
    if id < k then (id, v) :: (k, w) :: rest
    else if id = k then (id, v) :: rest
    else (k, w) :: mapInsert id v rest

/-- `infos_.erase(id)`. -/
def mapErase (id : Nat) : List (Nat × DownloadInfo) → List (Nat × DownloadInfo)
  | [] => []
  | (k, w) :: rest => if id = k then rest else (k, w) :: mapErase id rest

/-- Modelled from the spec: the temp directory path (`TempDir`, from
`temp_dir.hpp`, is not part of the sources; spec §6 gives the layout
`<tempdir>/file_<fileIndex>.bin`). -/
def tempDirPath : String := "<tempdir>"

/-- `DownloadManager::getFilePath_`. -/
def getFilePath (fileIdx : Nat) : String :=
  tempDirPath ++ "/file_" ++ toString fileIdx ++ ".bin"

/-- The progress-clamping logic of `OnDownloadUpdated` (lines 100-104):
`GetPercentComplete()` returns `-1` when the percentage is unknown; that
sentinel is mapped to 50, then the value is clamped to `[0, 100]`. -/
def clampProgress (raw : Int) : Int :=
  let p : Int := if raw = -1 then 50 else raw
  max 0 (min 100 p)

/-- Ordering used by `sort(pairs.begin(), pairs.end())` on
`vector<pair<int,int>>`: lexicographic on (fileIdx, progress). -/
def pairLe (p q : Nat × Int) : Prop :=
  p.1 < q.1 ∨ (p.1 = q.1 ∧ p.2 ≤ q.2)

instance : DecidableRel pairLe := fun p q => by
  unfold pairLe; infer_instance

/-- The `(fileIdx, progress)` pairs collected by
`DownloadManager::downloadProgressChanged_` (one per entry whose
`startCallback` is null). -/
def acceptedPairs (infos : List (Nat × DownloadInfo)) : List (Nat × Int) :=
  infos.filterMap fun e =>
    if e.2.startCallback.isNone then some (e.2.fileIdx, e.2.progress) else none

/-- The payload of `onDownloadProgressChanged`: the progress components of
the sorted pairs. -/
def progressPayload (infos : List (Nat × DownloadInfo)) : List Int :=
  (List.insertionSort pairLe (acceptedPairs infos)).map fun p => p.2

/-- `DownloadManager::DownloadHandler::OnBeforeDownload` (lines 42-63).
`none` models the `REQUIRE(!infos_.count(id))` abort. -/
def onBeforeDownload (s : DMState) (id : Nat) (suggestedName : String)
    (cb : Nat) : Option (DMState × List DMOut) :=
  if (mapFind s.infos id).isSome then none
  else
    let info : DownloadInfo :=
      { fileIdx := s.nextFileIdx, name := suggestedName
        startCallback := some cb, cancelCallback := none, progress := 0 }
    let pending' := s.pending ++ [id]
    some ({ infos := mapInsert id info s.infos, pending := pending'
            nextFileIdx := s.nextFileIdx + 1 },
          [DMOut.pendingCount pending'.length])

/-- `DownloadManager::DownloadHandler::OnDownloadUpdated` (lines 65-107).
The triggering event supplies `IsComplete()`, `IsInProgress()`,
`GetPercentComplete()` and the `CefDownloadItemCallback` token. -/
def onDownloadUpdated (s : DMState) (id : Nat) (isComplete isInProgress : Bool)
    (percent : Int) (cb : Nat) : DMState × List DMOut :=
  match mapFind s.infos id with
  | none => (s, [])
  | some info =>
    if info.startCallback.isSome then (s, [])
    else
      if isComplete then
        let infos' := mapErase id s.infos
        ({ s with infos := infos' },
         [DMOut.completed (getFilePath info.fileIdx) info.name,
          DMOut.progressList (progressPayload infos')])
      else if !isInProgress then
        let infos' := mapErase id s.infos
        ({ s with infos := infos' },
         [DMOut.cancelCb cb, DMOut.unlinkFile info.fileIdx,
          DMOut.progressList (progressPayload infos')])
      else
        let info' := { info with cancelCallback := some cb
                                 progress := clampProgress percent }
        let infos' := mapInsert id info' s.infos
        ({ s with infos := infos' },
         [DMOut.progressList (progressPayload infos')])

/-- `DownloadManager::acceptPendingDownload` (lines 142-161).  `none`
models the `REQUIRE(infos_.count(id))` / `REQUIRE(info.startCallback)`
aborts. -/
def acceptPendingDownload (s : DMState) : Option (DMState × List DMOut) :=
  match s.pending with
  | [] => some (s, [])
  | id :: rest =>
    match mapFind s.infos id with
    | none => none
    | some info =>
      match info.startCallback with
      | none => none
      | some cb =>
        let path := getFilePath info.fileIdx
        let infos' := mapInsert id { info with startCallback := none } s.infos
        some ({ s with infos := infos', pending := rest },
              [DMOut.pendingCount rest.length,
               DMOut.continueStart cb path,
               DMOut.progressList (progressPayload infos')])

/-- Loop body of `DownloadManager::~DownloadManager` for one map entry
(lines 131-139): for an entry with null `startCallback`, invoke
`cancelCallback` if set and unlink the temp file; entries still holding
their `startCallback` produce no effect. -/
def teardownEntry (e : Nat × DownloadInfo) : List DMOut :=
  if e.2.startCallback.isNone then
    (match e.2.cancelCallback with
     | some cb => [DMOut.cancelCb cb]
     | none => []) ++ [DMOut.unlinkFile e.2.fileIdx]
  else []

/-- `DownloadManager::~DownloadManager` (lines 129-140): iterate the map
(ascending key order) applying the loop body to every entry. -/
def dmDestructor (s : DMState) : List DMOut :=
  s.infos.flatMap teardownEntry

/-- Input events driving the ledger: engine callbacks and the explicit
accept operation (all run on the UI thread, hence sequentially). -/
inductive DMEv where
  | beginDl (id : Nat) (name : String) (cb : Nat)
  | update (id : Nat) (isComplete isInProgress : Bool) (percent : Int) (cb : Nat)
  | accept
deriving Repr, DecidableEq

def dmStep (s : DMState) : DMEv → Option (DMState × List DMOut)
  | DMEv.beginDl id name cb => onBeforeDownload s id name cb
  | DMEv.update id c ip p cb => some (onDownloadUpdated s id c ip p cb)
  | DMEv.accept => acceptPendingDownload s

def runEvents (s : DMState) : List DMEv → Option (DMState × List DMOut)
  | [] => some (s, [])
  | e :: es =>
    match dmStep s e with
    | none => none
    | some (s1, outs1) =>
      match runEvents s1 es with
      | none => none
      | some (s2, outs2) => some (s2, outs1 ++ outs2)

/-- Projection selecting the `Continue` invocations from an output trace. -/
def continueOut : DMOut → Option (Nat × String)
  | DMOut.continueStart cb path => some (cb, path)
  | _ => none

/-- Whether an output is an `onDownloadCompleted` delivery. -/
def isCompletedOut : DMOut → Bool
  | DMOut.completed _ _ => true
  | _ => false

/-- Whether an output is an `onDownloadProgressChanged` notification. -/
def isProgressOut : DMOut → Bool
  | DMOut.progressList _ => true
  | _ => false

/-- Spec §3 invariant predicate on one ledger entry, as the claim states
it: exactly one of the start/cancel capabilities is set. -/
def exactlyOneCap (info : DownloadInfo) : Bool :=
  info.startCallback.isSome ^^ info.cancelCallback.isSome

/-- Weakened per-entry capability predicate: at most one of the
start/cancel capabilities is set. -/
def atMostOneCap (info : DownloadInfo) : Bool :=
  !(info.startCallback.isSome && info.cancelCallback.isSome)

/-- The (id, startCallback token, fileIdx) triples that a block of
download-begin events starting at `nextFileIdx_ = i0` registers, in event
order. -/
def beginsTodo (i0 : Nat) : List (Nat × String × Nat) → List (Nat × Nat × Nat)
  | [] => []
  | b :: rest => (b.1, b.2.2, i0) :: beginsTodo (i0 + 1) rest

instance : IsTotal (Nat × Int) pairLe :=
  ⟨by
    intro p q
    rcases Nat.lt_trichotomy p.1 q.1 with h | h | h
    · exact Or.inl (Or.inl h)
    · rcases le_total p.2 q.2 with h2 | h2
      · exact Or.inl (Or.inr ⟨h, h2⟩)
      · exact Or.inr (Or.inr ⟨h.symm, h2⟩)
    · exact Or.inr (Or.inl h)⟩

instance : IsTrans (Nat × Int) pairLe :=
  ⟨by
    intro p q r hpq hqr
    rcases hpq with h1 | ⟨h1, h1'⟩ <;> rcases hqr with h2 | ⟨h2, h2'⟩
    · exact Or.inl (h1.trans h2)
    · exact Or.inl (h2 ▸ h1)
    · exact Or.inl (h1 ▸ h2)
    · exact Or.inr ⟨h1.trans h2, h1'.trans h2'⟩⟩

instance : IsAntisymm (Nat × Int) pairLe :=
  ⟨by
    intro p q hpq hqp
    rcases hpq with h1 | ⟨h1, h1'⟩ <;> rcases hqp with h2 | ⟨h2, h2'⟩
    · exact absurd (h1.trans h2) (Nat.lt_irrefl _)
    · exact absurd h1 (h2 ▸ Nat.lt_irrefl _)
    · exact absurd h2 (h1 ▸ Nat.lt_irrefl _)
    · exact Prod.ext h1 (le_antisymm h1' h2')⟩

/-! ## Theorems -/

/-! ### Association-list (std::map) lemmas -/

theorem mapInsert_cons_lt (id ek : Nat) (v ev : DownloadInfo)
    (rest : List (Nat × DownloadInfo)) (h : id < ek) :
    mapInsert id v ((ek, ev) :: rest) = (id, v) :: (ek, ev) :: rest := by
  simp [mapInsert, h]

theorem mapInsert_cons_self (id : Nat) (v ev : DownloadInfo)
    (rest : List (Nat × DownloadInfo)) :
    mapInsert id v ((id, ev) :: rest) = (id, v) :: rest := by
  simp [mapInsert]

theorem mapInsert_cons_gt (id ek : Nat) (v ev : DownloadInfo)
    (rest : List (Nat × DownloadInfo)) (h1 : ¬id < ek) (h2 : ¬id = ek) :
    mapInsert id v ((ek, ev) :: rest) = (ek, ev) :: mapInsert id v rest := by
  simp [mapInsert, h1, h2]

theorem mapFind_cons (k ek : Nat) (ev : DownloadInfo)
    (rest : List (Nat × DownloadInfo)) :
    mapFind ((ek, ev) :: rest) k = if k = ek then some ev else mapFind rest k :=
  rfl

theorem mapFind_mapInsert (id k : Nat) (v : DownloadInfo)
    (m : List (Nat × DownloadInfo)) :
    mapFind (mapInsert id v m) k = if k = id then some v else mapFind m k := by
  induction m with
  | nil => simp [mapInsert, mapFind]
  | cons e rest ih =>
    obtain ⟨ek, ev⟩ := e
    by_cases h1 : id < ek
    · rw [mapInsert_cons_lt id ek v ev rest h1]
      by_cases hk : k = id
      · simp [mapFind_cons, hk]
      · simp [mapFind_cons, hk]
    · by_cases h2 : id = ek
      · subst h2
        rw [mapInsert_cons_self id v ev rest]
        by_cases hk : k = id
        · simp [mapFind_cons, hk]
        · simp [mapFind_cons, hk]
      · rw [mapInsert_cons_gt id ek v ev rest h1 h2]
        by_cases hk : k = ek
        · have hki : ¬k = id := fun hh => h2 (hh ▸ hk)
          have h2i : ¬ek = id := fun hh => h2 hh.symm
          simp [mapFind_cons, hk, hki, h2i]
        · simp [mapFind_cons, hk, ih]

theorem mapFind_eq_none_of_not_mem (id : Nat) (m : List (Nat × DownloadInfo))
    (h : id ∉ m.map Prod.fst) : mapFind m id = none := by
  induction m with
  | nil => rfl
  | cons e rest ih =>
    obtain ⟨ek, ev⟩ := e
    simp only [List.map_cons, List.mem_cons] at h
    push_neg at h
    simp [mapFind_cons, h.1, ih h.2]

theorem mapErase_cons_self (id : Nat) (ev : DownloadInfo)
    (rest : List (Nat × DownloadInfo)) :
    mapErase id ((id, ev) :: rest) = rest := by
  simp [mapErase]

theorem mapErase_cons_ne (id ek : Nat) (ev : DownloadInfo)
    (rest : List (Nat × DownloadInfo)) (h : ¬id = ek) :
    mapErase id ((ek, ev) :: rest) = (ek, ev) :: mapErase id rest := by
  simp [mapErase, h]

theorem mapFind_mapErase_self (id : Nat) (m : List (Nat × DownloadInfo))
    (h : (m.map Prod.fst).Nodup) : mapFind (mapErase id m) id = none := by
  induction m with
  | nil => rfl
  | cons e rest ih =>
    obtain ⟨ek, ev⟩ := e
    simp only [List.map_cons, List.nodup_cons] at h
    by_cases hk : id = ek
    · subst hk
      rw [mapErase_cons_self id ev rest]
      exact mapFind_eq_none_of_not_mem _ _ h.1
    · rw [mapErase_cons_ne id ek ev rest hk]
      simp [mapFind_cons, hk, ih h.2]

theorem mapFind_mapErase_ne (id k : Nat) (m : List (Nat × DownloadInfo))
    (h : k ≠ id) : mapFind (mapErase id m) k = mapFind m k := by
  induction m with
  | nil => rfl
  | cons e rest ih =>
    obtain ⟨ek, ev⟩ := e
    by_cases he : id = ek
    · subst he
      rw [mapErase_cons_self id ev rest]
      simp [mapFind_cons, h]
    · rw [mapErase_cons_ne id ek ev rest he]
      by_cases hk : k = ek
      · simp [mapFind_cons, hk]
      · simp [mapFind_cons, hk, ih]

theorem mem_of_mem_mapInsert (e : Nat × DownloadInfo) (id : Nat)
    (v : DownloadInfo) (m : List (Nat × DownloadInfo))
    (h : e ∈ mapInsert id v m) : e = (id, v) ∨ e ∈ m := by
  induction m with
  | nil =>
    simp only [mapInsert, List.mem_singleton] at h
    exact Or.inl h
  | cons f rest ih =>
    obtain ⟨fk, fv⟩ := f
    simp only [mapInsert] at h
    split_ifs at h with h1 h2
    · rcases List.mem_cons.1 h with h3 | h3
      · exact Or.inl h3
      · exact Or.inr h3
    · rcases List.mem_cons.1 h with h3 | h3
      · exact Or.inl h3
      · exact Or.inr (List.mem_cons_of_mem _ h3)
    · rcases List.mem_cons.1 h with h3 | h3
      · exact Or.inr (h3 ▸ List.mem_cons_self _ _)
      · rcases ih h3 with h4 | h4
        · exact Or.inl h4
        · exact Or.inr (List.mem_cons_of_mem _ h4)

theorem mem_of_mem_mapErase (e : Nat × DownloadInfo) (id : Nat)
    (m : List (Nat × DownloadInfo)) (h : e ∈ mapErase id m) : e ∈ m := by
  induction m with
  | nil => exact absurd h (List.not_mem_nil e)
  | cons f rest ih =>
    simp only [mapErase] at h
    split_ifs at h with h1
    · exact List.mem_cons_of_mem _ h
    · rcases List.mem_cons.1 h with h3 | h3
      · exact h3 ▸ List.mem_cons_self _ _
      · exact List.mem_cons_of_mem _ (ih h3)

theorem mem_of_mapFind_eq_some (id : Nat) (v : DownloadInfo)
    (m : List (Nat × DownloadInfo)) (h : mapFind m id = some v) :
    (id, v) ∈ m := by
  induction m with
  | nil => exact absurd h (by simp [mapFind])
  | cons e rest ih =>
    simp only [mapFind] at h
    split_ifs at h with h1
    · cases h
      exact h1 ▸ List.mem_cons_self _ _
    · exact List.mem_cons_of_mem _ (ih h)

/-! ### Branch characterizations of `OnDownloadUpdated` -/

theorem onDownloadUpdated_unknown (s : DMState) (id : Nat) (c ip : Bool)
    (p : Int) (cb : Nat) (hf : mapFind s.infos id = none) :
    onDownloadUpdated s id c ip p cb = (s, []) := by
  unfold onDownloadUpdated
  rw [hf]

theorem onDownloadUpdated_awaiting (s : DMState) (id : Nat) (c ip : Bool)
    (p : Int) (cb : Nat) (info : DownloadInfo)
    (hf : mapFind s.infos id = some info)
    (hs : info.startCallback.isSome = true) :
    onDownloadUpdated s id c ip p cb = (s, []) := by
  unfold onDownloadUpdated
  rw [hf]
  simp [hs]

theorem onDownloadUpdated_complete (s : DMState) (id : Nat)
    (info : DownloadInfo) (ip : Bool) (p : Int) (cb : Nat)
    (hf : mapFind s.infos id = some info) (hs : info.startCallback = none) :
    onDownloadUpdated s id true ip p cb =
      ({ s with infos := mapErase id s.infos },
       [DMOut.completed (getFilePath info.fileIdx) info.name,
        DMOut.progressList (progressPayload (mapErase id s.infos))]) := by
  unfold onDownloadUpdated
  rw [hf]
  simp [hs]

theorem onDownloadUpdated_cancel (s : DMState) (id : Nat)
    (info : DownloadInfo) (p : Int) (cb : Nat)
    (hf : mapFind s.infos id = some info) (hs : info.startCallback = none) :
    onDownloadUpdated s id false false p cb =
      ({ s with infos := mapErase id s.infos },
       [DMOut.cancelCb cb, DMOut.unlinkFile info.fileIdx,
        DMOut.progressList (progressPayload (mapErase id s.infos))]) := by
  unfold onDownloadUpdated
  rw [hf]
  simp [hs]

theorem onDownloadUpdated_tick (s : DMState) (id : Nat)
    (info : DownloadInfo) (p : Int) (cb : Nat)
    (hf : mapFind s.infos id = some info) (hs : info.startCallback = none) :
    onDownloadUpdated s id false true p cb =
      ({ s with infos := mapInsert id ({ info with cancelCallback := some cb, progress := clampProgress p }) s.infos },
       [DMOut.progressList (progressPayload (mapInsert id ({ info with cancelCallback := some cb, progress := clampProgress p }) s.infos))]) := by
  unfold onDownloadUpdated
  rw [hf]
  simp [hs, clampProgress]

/-- Shape of `implDestructor` on a handle destroyed before any response:
the promise is fulfilled with the fixed fallback responder. -/
theorem implDestructor_eq_fallback (s : HTTPRequestImpl)
    (h : s.responseSent = false) :
    implDestructor s =
      { s with responseSent := true
               responderPromise := some
                 { status := 500, contentType := "text/plain; charset=UTF-8"
                   contentLength := "ERROR: Request handling failure\n".utf8ByteSize
                   noCache := true
                   body := "ERROR: Request handling failure\n" } } := by
  simp only [implDestructor, implSendTextResponse, implSendResponse, h,
    Bool.false_eq_true, if_false, Option.getD_some]

/-- C1: if an `HTTPRequest` handle is destroyed without `sendResponse` or
`sendTextResponse` ever having been called, the destructor fulfils the
responder promise (so the worker thread blocked in `responderFuture.get()`
is released, never left blocked forever) with a fallback response of
status 500, the fixed non-empty diagnostic text body
`"ERROR: Request handling failure\n"`, and caching disabled: the responder
adds the `Cache-Control`, `Pragma` and `Expires` no-cache headers. -/
theorem C1_destructor_fallback_response (s : HTTPRequestImpl)
    (h : s.responseSent = false) :
    ∃ r : HTTPResponder,
      (implDestructor s).responderPromise = some r ∧
      ((implDestructor s).responderPromise).isSome = true ∧
      r.status = 500 ∧
      r.body = "ERROR: Request handling failure\n" ∧
      r.body ≠ "" ∧
      r.noCache = true ∧
      ("Cache-Control", "no-cache, no-store, must-revalidate") ∈
        (applyResponder r).headers ∧
      ("Pragma", "no-cache") ∈ (applyResponder r).headers ∧
      ("Expires", "0") ∈ (applyResponder r).headers ∧
      (applyResponder r).bodyWritten = "ERROR: Request handling failure\n" := by
  refine ⟨{ status := 500, contentType := "text/plain; charset=UTF-8"
            contentLength := "ERROR: Request handling failure\n".utf8ByteSize
            noCache := true, body := "ERROR: Request handling failure\n" },
    ?_, ?_, rfl, rfl, ?_, rfl, ?_, ?_, ?_, rfl⟩
  · rw [implDestructor_eq_fallback s h]
  · rw [implDestructor_eq_fallback s h]; rfl
  · decide
  · simp [applyResponder]
  · simp [applyResponder]
  · simp [applyResponder]

/-- Witness for C1 at a concrete freshly constructed handle: the promise
is fulfilled by the destructor. -/
theorem C1_destructor_fallback_response_witness :
    ((implDestructor (mkHTTPRequestImpl "GET" "/")).responderPromise).isSome
      = true := by
  obtain ⟨r, h1, h2, h3, h4, h5, h6, h7, h8, h9, h10⟩ :=
    C1_destructor_fallback_response (mkHTTPRequestImpl "GET" "/") rfl
  exact h2

/-- C8: after the single legal response write succeeds, every further
operation on the handle hits `CHECK(!responseSent_)` and aborts (modelled
by `none`): a second `sendResponse`, a second `sendTextResponse`, and the
`method()` / `path()` accessors all fail. -/
theorem C8_operations_after_response_abort (s s' : HTTPRequestImpl)
    (st : Int) (ct : String) (len : Nat) (b : String) (nc : Bool)
    (st2 : Int) (ct2 : String) (len2 : Nat) (b2 : String) (nc2 : Bool)
    (st3 : Int) (t3 : String) (nc3 : Bool)
    (h : implSendResponse s st ct len b nc = some s') :
    implSendResponse s' st2 ct2 len2 b2 nc2 = none ∧
    implSendTextResponse s' st3 t3 nc3 = none ∧
    implMethod s' = none ∧
    implPath s' = none := by
  unfold implSendResponse at h
  by_cases hs : s.responseSent
  · simp [hs] at h
  · simp only [hs, Bool.false_eq_true, if_false, Option.some.injEq] at h
    subst h
    refine ⟨?_, ?_, rfl, rfl⟩
    · rfl
    · rfl

/-- Witness for C8 at a concrete handle and concrete first write. -/
theorem C8_operations_after_response_abort_witness :
    implSendResponse
      { requestMethod := "GET", requestURI := "/", responseSent := true
        responderPromise := some
          { status := 200, contentType := "text/html", contentLength := 0
            noCache := false, body := "" } } 500 "text/plain" 1 "x" true
      = none ∧
    implSendTextResponse
      { requestMethod := "GET", requestURI := "/", responseSent := true
        responderPromise := some
          { status := 200, contentType := "text/html", contentLength := 0
            noCache := false, body := "" } } 404 "nope" false = none ∧
    implMethod
      { requestMethod := "GET", requestURI := "/", responseSent := true
        responderPromise := some
          { status := 200, contentType := "text/html", contentLength := 0
            noCache := false, body := "" } } = none ∧
    implPath
      { requestMethod := "GET", requestURI := "/", responseSent := true
        responderPromise := some
          { status := 200, contentType := "text/html", contentLength := 0
            noCache := false, body := "" } } = none :=
  C8_operations_after_response_abort (mkHTTPRequestImpl "GET" "/") _
    200 "text/html" 0 "" false 500 "text/plain" 1 "x" true 404 "nope" false rfl

/-- C9: calling `acceptPendingDownload` with an empty pending queue leaves
the ledger state completely unchanged and emits no output event at all. -/
theorem C9_accept_empty_noop (s : DMState) (h : s.pending = []) :
    acceptPendingDownload s = some (s, []) := by
  unfold acceptPendingDownload
  rw [h]

/-- Witness for C9 at the initial (empty) ledger. -/
theorem C9_accept_empty_noop_witness :
    acceptPendingDownload initDMState = some (initDMState, []) :=
  C9_accept_empty_noop initDMState rfl

/-- C3 counterexample: in the code the raw engine progress value `-1` IS
the indeterminate sentinel (`GetPercentComplete()` returns `-1` for
"unknown"), so a progress-tick update carrying `-1` stores 50, not the 0
the claim's respectively-list assigns to input `-1`. -/
theorem C3_counterexample :
    (onDownloadUpdated
        { infos := [(1, { fileIdx := 1, name := "f", startCallback := none
                          cancelCallback := none, progress := 0 })]
          pending := [], nextFileIdx := 2 } 1 false true (-1) 9).1.infos =
      [(1, { fileIdx := 1, name := "f", startCallback := none
             cancelCallback := some 9, progress := 50 })] ∧
    ((50 : Int) = 0 → False) :=
  ⟨rfl, by decide⟩

/-- C3 (amended): a progress-tick update on an Accepted download stores
`clampProgress percent`, which maps the sentinel `-1` to 50 first and then
clamps to [0,100]; on the claim's inputs (where `-1` is the sentinel) the
stored values are {-50 to 0, 0 to 0, 37 to 37, 100 to 100, 101 to 100,
9999 to 100, sentinel -1 to 50}. -/
theorem C3_progress_clamping (s : DMState) (id : Nat) (info : DownloadInfo)
    (percent : Int) (cb : Nat)
    (hf : mapFind s.infos id = some info) (hs : info.startCallback = none) :
    mapFind (onDownloadUpdated s id false true percent cb).1.infos id =
      some ({ info with cancelCallback := some cb, progress := clampProgress percent }) ∧
    clampProgress (-50) = 0 ∧ clampProgress 0 = 0 ∧ clampProgress 37 = 37 ∧
    clampProgress 100 = 100 ∧ clampProgress 101 = 100 ∧
    clampProgress 9999 = 100 ∧ clampProgress (-1) = 50 := by
  refine ⟨?_, by decide, by decide, by decide, by decide, by decide,
    by decide, by decide⟩
  rw [onDownloadUpdated_tick s id info percent cb hf hs]
  simp [mapFind_mapInsert]

/-- Witness for C3 (amended) at a concrete one-download ledger. -/
theorem C3_progress_clamping_witness :
    mapFind (onDownloadUpdated
        { infos := [(1, { fileIdx := 1, name := "f", startCallback := none
                          cancelCallback := none, progress := 0 })]
          pending := [], nextFileIdx := 2 } 1 false true 37 9).1.infos 1 =
      some ({ fileIdx := 1, name := "f", startCallback := none
              cancelCallback := some 9, progress := clampProgress 37 }) ∧
    clampProgress (-50) = 0 ∧ clampProgress 0 = 0 ∧ clampProgress 37 = 37 ∧
    clampProgress 100 = 100 ∧ clampProgress 101 = 100 ∧
    clampProgress 9999 = 100 ∧ clampProgress (-1) = 50 :=
  C3_progress_clamping
    { infos := [(1, { fileIdx := 1, name := "f", startCallback := none
                      cancelCallback := none, progress := 0 })]
      pending := [], nextFileIdx := 2 } 1
    { fileIdx := 1, name := "f", startCallback := none
      cancelCallback := none, progress := 0 } 37 9 rfl rfl

/-- C5: the first is-complete update for an Accepted id delivers exactly
one `onDownloadCompleted` notification, removes the id from the ledger in
that same step, and any subsequent update event for that id leaves the
state unchanged and emits nothing (no fault, no second delivery). -/
theorem C5_single_completion (s : DMState) (id : Nat) (info : DownloadInfo)
    (ip : Bool) (p : Int) (cb : Nat) (c2 ip2 : Bool) (p2 : Int) (cb2 : Nat)
    (hn : (s.infos.map Prod.fst).Nodup)
    (hf : mapFind s.infos id = some info) (hs : info.startCallback = none) :
    List.countP isCompletedOut (onDownloadUpdated s id true ip p cb).2 = 1 ∧
    mapFind (onDownloadUpdated s id true ip p cb).1.infos id = none ∧
    onDownloadUpdated (onDownloadUpdated s id true ip p cb).1 id c2 ip2 p2 cb2 =
      ((onDownloadUpdated s id true ip p cb).1, []) := by
  rw [onDownloadUpdated_complete s id info ip p cb hf hs]
  have herase : mapFind (mapErase id s.infos) id = none :=
    mapFind_mapErase_self id s.infos hn
  exact ⟨rfl, herase,
    onDownloadUpdated_unknown _ id c2 ip2 p2 cb2 herase⟩

/-- Witness for C5 at a concrete one-download ledger. -/
theorem C5_single_completion_witness :
    List.countP isCompletedOut (onDownloadUpdated
        { infos := [(3, { fileIdx := 1, name := "d.bin", startCallback := none
                          cancelCallback := some 5, progress := 80 })]
          pending := [], nextFileIdx := 2 } 3 true false 100 6).2 = 1 ∧
    mapFind (onDownloadUpdated
        { infos := [(3, { fileIdx := 1, name := "d.bin", startCallback := none
                          cancelCallback := some 5, progress := 80 })]
          pending := [], nextFileIdx := 2 } 3 true false 100 6).1.infos 3 = none ∧
    onDownloadUpdated (onDownloadUpdated
        { infos := [(3, { fileIdx := 1, name := "d.bin", startCallback := none
                          cancelCallback := some 5, progress := 80 })]
          pending := [], nextFileIdx := 2 } 3 true false 100 6).1 3 true false 100 7 =
      ((onDownloadUpdated
        { infos := [(3, { fileIdx := 1, name := "d.bin", startCallback := none
                          cancelCallback := some 5, progress := 80 })]
          pending := [], nextFileIdx := 2 } 3 true false 100 6).1, []) :=
  C5_single_completion
    { infos := [(3, { fileIdx := 1, name := "d.bin", startCallback := none
                      cancelCallback := some 5, progress := 80 })]
      pending := [], nextFileIdx := 2 } 3
    { fileIdx := 1, name := "d.bin", startCallback := none
      cancelCallback := some 5, progress := 80 } false 100 6 true false 100 7
    (by decide) rfl rfl

/-- C10: a download-updated event for an id present in the ledger with
its `startCallback` already cleared (Accepted) emits exactly one
download-progress-changed notification, in all three branches (complete,
cancel, progress tick); events for unknown ids or ids still awaiting
acceptance emit no output at all. -/
theorem C10_update_notifications (s : DMState) (id : Nat) (c ip : Bool)
    (p : Int) (cb : Nat) :
    ((∃ info, mapFind s.infos id = some info ∧ info.startCallback = none) →
      List.countP isProgressOut (onDownloadUpdated s id c ip p cb).2 = 1) ∧
    (mapFind s.infos id = none → (onDownloadUpdated s id c ip p cb).2 = []) ∧
    (∀ info, mapFind s.infos id = some info → info.startCallback.isSome = true →
      (onDownloadUpdated s id c ip p cb).2 = []) := by
  refine ⟨?_, ?_, ?_⟩
  · rintro ⟨info, hf, hs⟩
    cases c
    · cases ip
      · rw [onDownloadUpdated_cancel s id info p cb hf hs]
        rfl
      · rw [onDownloadUpdated_tick s id info p cb hf hs]
        rfl
    · rw [onDownloadUpdated_complete s id info ip p cb hf hs]
      rfl
  · intro hf
    rw [onDownloadUpdated_unknown s id c ip p cb hf]
  · intro info hf hs
    rw [onDownloadUpdated_awaiting s id c ip p cb info hf hs]

/-- Witness for C10: an accepted id gets exactly one progress
notification; an unknown id and an awaiting id get none. -/
theorem C10_update_notifications_witness :
    List.countP isProgressOut (onDownloadUpdated
        { infos := [(1, { fileIdx := 1, name := "f", startCallback := none
                          cancelCallback := none, progress := 0 })]
          pending := [], nextFileIdx := 2 } 1 false true 30 9).2 = 1 ∧
    (onDownloadUpdated initDMState 1 false true 30 9).2 = [] ∧
    (onDownloadUpdated
        { infos := [(1, { fileIdx := 1, name := "f", startCallback := some 4
                          cancelCallback := none, progress := 0 })]
          pending := [1], nextFileIdx := 2 } 1 false true 30 9).2 = [] := by
  refine ⟨(C10_update_notifications
      { infos := [(1, { fileIdx := 1, name := "f", startCallback := none
                        cancelCallback := none, progress := 0 })]
        pending := [], nextFileIdx := 2 } 1 false true 30 9).1
      ⟨{ fileIdx := 1, name := "f", startCallback := none
         cancelCallback := none, progress := 0 }, rfl, rfl⟩,
    (C10_update_notifications initDMState 1 false true 30 9).2.1 rfl,
    (C10_update_notifications
      { infos := [(1, { fileIdx := 1, name := "f", startCallback := some 4
                        cancelCallback := none, progress := 0 })]
        pending := [1], nextFileIdx := 2 } 1 false true 30 9).2.2
      { fileIdx := 1, name := "f", startCallback := some 4
        cancelCallback := none, progress := 0 } rfl rfl⟩

/-- Every successful `dmStep` either leaves `infos_` unchanged, erases one
entry, or inserts one entry whose capabilities satisfy `atMostOneCap`. -/
theorem dmStep_infos_shape (s s' : DMState) (ev : DMEv) (outs : List DMOut)
    (h : dmStep s ev = some (s', outs)) :
    s'.infos = s.infos ∨
    (∃ id, s'.infos = mapErase id s.infos) ∨
    (∃ id v, s'.infos = mapInsert id v s.infos ∧ atMostOneCap v = true) := by
  cases ev with
  | beginDl id name cb =>
    simp only [dmStep, onBeforeDownload] at h
    by_cases h1 : (mapFind s.infos id).isSome
    · rw [if_pos h1] at h
      exact absurd h (by simp)
    · rw [if_neg h1] at h
      have h2 := Option.some.inj h
      injection h2 with h3 h4
      subst h3
      exact Or.inr (Or.inr ⟨id, _, rfl, rfl⟩)
  | update id c ip p cb =>
    simp only [dmStep] at h
    have h2 := Option.some.inj h
    rcases hf : mapFind s.infos id with _ | info
    · rw [onDownloadUpdated_unknown s id c ip p cb hf] at h2
      injection h2 with h3 h4
      subst h3
      exact Or.inl rfl
    · by_cases hsc : info.startCallback.isSome
      · rw [onDownloadUpdated_awaiting s id c ip p cb info hf hsc] at h2
        injection h2 with h3 h4
        subst h3
        exact Or.inl rfl
      · have hs : info.startCallback = none :=
          Option.not_isSome_iff_eq_none.mp hsc
        cases c
        · cases ip
          · rw [onDownloadUpdated_cancel s id info p cb hf hs] at h2
            injection h2 with h3 h4
            subst h3
            exact Or.inr (Or.inl ⟨id, rfl⟩)
          · rw [onDownloadUpdated_tick s id info p cb hf hs] at h2
            injection h2 with h3 h4
            subst h3
            refine Or.inr (Or.inr ⟨id, _, rfl, ?_⟩)
            simp [atMostOneCap, hs]
        · rw [onDownloadUpdated_complete s id info ip p cb hf hs] at h2
          injection h2 with h3 h4
          subst h3
          exact Or.inr (Or.inl ⟨id, rfl⟩)
  | accept =>
    simp only [dmStep, acceptPendingDownload] at h
    rcases hp : s.pending with _ | ⟨id, rest⟩
    · simp only [hp] at h
      have h2 := Option.some.inj h
      injection h2 with h3 h4
      subst h3
      exact Or.inl rfl
    · simp only [hp] at h
      rcases hf : mapFind s.infos id with _ | info
      · simp only [hf] at h
        exact Option.noConfusion h
      · simp only [hf] at h
        rcases hsc : info.startCallback with _ | cb
        · simp only [hsc] at h
          exact Option.noConfusion h
        · simp only [hsc, Option.some.injEq] at h
          injection h with h3 h4
          subst h3
          refine Or.inr (Or.inr ⟨id, _, rfl, ?_⟩)
          simp [atMostOneCap]

/-- One step of the ledger preserves the at-most-one-capability invariant. -/
theorem dmStep_atMostOne (s s' : DMState) (ev : DMEv) (outs : List DMOut)
    (hinv : ∀ e ∈ s.infos, atMostOneCap e.2 = true)
    (h : dmStep s ev = some (s', outs)) :
    ∀ e ∈ s'.infos, atMostOneCap e.2 = true := by
  intro e he
  rcases dmStep_infos_shape s s' ev outs h with h1 | ⟨id, h1⟩ | ⟨id, v, h1, hv⟩
  · exact hinv e (h1 ▸ he)
  · exact hinv e (mem_of_mem_mapErase e id s.infos (h1 ▸ he))
  · rcases mem_of_mem_mapInsert e id v s.infos (h1 ▸ he) with h2 | h2
    · rw [h2]
      exact hv
    · exact hinv e h2

/-- Any run of the ledger preserves the at-most-one-capability invariant. -/
theorem runEvents_atMostOne (evs : List DMEv) (s0 s : DMState)
    (outs : List DMOut)
    (hinv : ∀ e ∈ s0.infos, atMostOneCap e.2 = true)
    (h : runEvents s0 evs = some (s, outs)) :
    ∀ e ∈ s.infos, atMostOneCap e.2 = true := by
  induction evs generalizing s0 outs with
  | nil =>
    simp only [runEvents, Option.some.injEq] at h
    injection h with h1 h2
    subst h1
    exact hinv
  | cons ev rest ih =>
    simp only [runEvents] at h
    rcases hstep : dmStep s0 ev with _ | pr
    · simp only [hstep] at h
      exact Option.noConfusion h
    · obtain ⟨s1, outs1⟩ := pr
      simp only [hstep] at h
      rcases hrun : runEvents s1 rest with _ | pr2
      · simp only [hrun] at h
        exact Option.noConfusion h
      · obtain ⟨s2, outs2⟩ := pr2
        simp only [hrun, Option.some.injEq] at h
        injection h with h3 h4
        subst h3
        exact ih s1 outs2 (dmStep_atMostOne s0 s1 ev outs1 hinv hstep) hrun

/-- C4 counterexample: the claim's "exactly one of the two capabilities is
set" fails on a reachable ledger state that is between operations — after
`acceptPendingDownload` has run and before any further update event, the
accepted download has `startCallback = nullptr` (cleared by the accept)
and `cancelCallback = nullptr` (it is only installed by the next
`OnDownloadUpdated` event), so neither capability is set. -/
theorem C4_counterexample :
    (runEvents initDMState [DMEv.beginDl 1 "a" 7, DMEv.accept]).map
        (fun r => r.1.infos.map fun e => exactlyOneCap e.2) =
      some [false] := by
  rfl

/-- C4 (amended): at every reachable ledger state, every tracked download
has AT MOST one of `startCallback`/`cancelCallback` set; the two are never
simultaneously set, but both may be unset between the accept operation and
the first subsequent update event (which installs the cancel capability). -/
theorem C4_at_most_one_capability (evs : List DMEv) (s : DMState)
    (outs : List DMOut)
    (h : runEvents initDMState evs = some (s, outs)) :
    ∀ e ∈ s.infos, atMostOneCap e.2 = true :=
  runEvents_atMostOne evs initDMState s outs
    (by intro e he; exact absurd he (List.not_mem_nil e)) h

/-- Witness for C4 (amended) on the concrete two-event run used by the
counterexample: the entry reached there satisfies the at-most-one
invariant. -/
theorem C4_at_most_one_capability_witness :
    atMostOneCap { fileIdx := 1, name := "a", startCallback := none
                   cancelCallback := none, progress := 0 } = true := by
  have h := C4_at_most_one_capability [DMEv.beginDl 1 "a" 7, DMEv.accept]
    { infos := [(1, { fileIdx := 1, name := "a", startCallback := none
                      cancelCallback := none, progress := 0 })]
      pending := [], nextFileIdx := 2 }
    [DMOut.pendingCount 1, DMOut.pendingCount 0,
     DMOut.continueStart 7 (getFilePath 1), DMOut.progressList [0]] rfl
  exact h (1, { fileIdx := 1, name := "a", startCallback := none
                cancelCallback := none, progress := 0 })
    (List.mem_singleton.mpr rfl)

/-- Entries still awaiting acceptance contribute nothing to the teardown:
dropping them from the map leaves the destructor's effects unchanged. -/
theorem flatMap_teardownEntry_filter (l : List (Nat × DownloadInfo)) :
    (l.filter fun e => e.2.startCallback.isNone).flatMap teardownEntry =
      l.flatMap teardownEntry := by
  induction l with
  | nil => rfl
  | cons e rest ih =>
    by_cases h : e.2.startCallback.isNone
    · simp only [List.filter_cons, h, if_pos, List.flatMap_cons, ih]
    · have ht : teardownEntry e = [] := by
        simp [teardownEntry, h]
      simp [List.filter_cons, h, ih, ht]

/-- C6: destroying the ledger invokes the cancel capability of every
Accepted download (entries with `startCallback` cleared; under the spec's
data model they carry a cancel capability) and unlinks its temp file,
while AwaitingAcceptance downloads (entries still holding their
`startCallback`) contribute no effect at all: their per-entry teardown is
empty and removing them from the map leaves the teardown trace unchanged. -/
theorem C6_teardown_effects (s : DMState)
    (hcb : ∀ e ∈ s.infos, e.2.startCallback = none →
      e.2.cancelCallback.isSome = true) :
    (∀ e ∈ s.infos, e.2.startCallback = none →
      DMOut.unlinkFile e.2.fileIdx ∈ dmDestructor s ∧
      ∃ cb, e.2.cancelCallback = some cb ∧ DMOut.cancelCb cb ∈ dmDestructor s) ∧
    (∀ e ∈ s.infos, e.2.startCallback.isSome = true → teardownEntry e = []) ∧
    dmDestructor { s with infos := s.infos.filter fun e => e.2.startCallback.isNone } =
      dmDestructor s := by
  refine ⟨?_, ?_, ?_⟩
  · intro e he hs
    have hmem : ∀ x ∈ teardownEntry e, x ∈ dmDestructor s := by
      intro x hx
      exact List.mem_flatMap.2 ⟨e, he, hx⟩
    obtain ⟨cb, hcb2⟩ := Option.isSome_iff_exists.mp (hcb e he hs)
    have ht : teardownEntry e = [DMOut.cancelCb cb, DMOut.unlinkFile e.2.fileIdx] := by
      simp [teardownEntry, hs, hcb2]
    refine ⟨hmem _ (by rw [ht]; simp), cb, hcb2, hmem _ (by rw [ht]; simp)⟩
  · intro e he hs
    obtain ⟨v, hv⟩ := Option.isSome_iff_exists.mp hs
    simp [teardownEntry, hv]
  · exact flatMap_teardownEntry_filter s.infos

/-- Witness for C6 on the spec's scenario: download A (id 10) Accepted
with fileIdx 3 and cancel token 5, download B (id 11) AwaitingAcceptance
with fileIdx 4 and start token 7: A's file is unlinked and A's cancel
capability invoked, B's per-entry teardown is empty and dropping B changes
nothing. -/
theorem C6_teardown_effects_witness :
    DMOut.unlinkFile 3 ∈ dmDestructor
      { infos := [(10, { fileIdx := 3, name := "a", startCallback := none
                         cancelCallback := some 5, progress := 40 }),
                  (11, { fileIdx := 4, name := "b", startCallback := some 7
                         cancelCallback := none, progress := 0 })]
        pending := [11], nextFileIdx := 5 } ∧
    DMOut.cancelCb 5 ∈ dmDestructor
      { infos := [(10, { fileIdx := 3, name := "a", startCallback := none
                         cancelCallback := some 5, progress := 40 }),
                  (11, { fileIdx := 4, name := "b", startCallback := some 7
                         cancelCallback := none, progress := 0 })]
        pending := [11], nextFileIdx := 5 } ∧
    teardownEntry (11, { fileIdx := 4, name := "b", startCallback := some 7
                         cancelCallback := none, progress := 0 }) = [] ∧
    dmDestructor { infos := ([(10, { fileIdx := 3, name := "a", startCallback := none
                                     cancelCallback := some 5, progress := 40 }),
                              (11, { fileIdx := 4, name := "b", startCallback := some 7
                                     cancelCallback := none, progress := 0 })].filter
                               fun e => e.2.startCallback.isNone)
                   pending := [11], nextFileIdx := 5 } =
      dmDestructor { infos := [(10, { fileIdx := 3, name := "a", startCallback := none
                                      cancelCallback := some 5, progress := 40 }),
                               (11, { fileIdx := 4, name := "b", startCallback := some 7
                                      cancelCallback := none, progress := 0 })]
                     pending := [11], nextFileIdx := 5 } := by
  have h := C6_teardown_effects
    { infos := [(10, { fileIdx := 3, name := "a", startCallback := none
                       cancelCallback := some 5, progress := 40 }),
                (11, { fileIdx := 4, name := "b", startCallback := some 7
                       cancelCallback := none, progress := 0 })]
      pending := [11], nextFileIdx := 5 }
    (by decide)
  obtain ⟨hu, cb, hcb, hc⟩ := h.1
    (10, { fileIdx := 3, name := "a", startCallback := none
           cancelCallback := some 5, progress := 40 })
    (List.mem_cons_self _ _) rfl
  have hcb5 : cb = 5 := (Option.some.inj hcb).symm
  refine ⟨hu, hcb5 ▸ hc, ?_, h.2.2⟩
  exact h.2.1
    (11, { fileIdx := 4, name := "b", startCallback := some 7
           cancelCallback := none, progress := 0 })
    (List.mem_cons_of_mem _ (List.mem_cons_self _ _)) rfl

/-- One pair in `acceptedPairs` per Accepted entry of the map. -/
theorem length_acceptedPairs (infos : List (Nat × DownloadInfo)) :
    (acceptedPairs infos).length =
      (infos.filter fun e => e.2.startCallback.isNone).length := by
  induction infos with
  | nil => rfl
  | cons e rest ih =>
    by_cases h : e.2.startCallback.isNone
    · simp only [acceptedPairs, List.filterMap_cons, h, if_pos,
        List.filter_cons, List.length_cons]
      simpa [acceptedPairs] using ih
    · simp only [acceptedPairs, List.filterMap_cons, h, if_neg,
        List.filter_cons, Bool.false_eq_true]
      simpa [acceptedPairs] using ih

/-- C7: the progress notification payload has exactly one value per
currently Accepted download, the pairs it projects from are sorted
ascending by `fileIdx` and are a permutation of the accepted
(fileIdx, progress) pairs of the ledger, and the payload depends only on
the contents of the map, not on the arrival order of its entries. -/
theorem C7_progress_payload (infos infos2 : List (Nat × DownloadInfo))
    (hperm : infos.Perm infos2) :
    (List.insertionSort pairLe (acceptedPairs infos)).Pairwise
      (fun p q => p.1 ≤ q.1) ∧
    (List.insertionSort pairLe (acceptedPairs infos)).Perm
      (acceptedPairs infos) ∧
    progressPayload infos =
      (List.insertionSort pairLe (acceptedPairs infos)).map (fun p => p.2) ∧
    (progressPayload infos).length =
      (infos.filter fun e => e.2.startCallback.isNone).length ∧
    progressPayload infos = progressPayload infos2 := by
  have hsorted := List.sorted_insertionSort pairLe (acceptedPairs infos)
  refine ⟨?_, List.perm_insertionSort pairLe (acceptedPairs infos), rfl, ?_, ?_⟩
  · exact List.Pairwise.imp
      (fun hpq => hpq.elim le_of_lt (fun hh => le_of_eq hh.1)) hsorted
  · unfold progressPayload
    rw [List.length_map, (List.perm_insertionSort pairLe _).length_eq]
    exact length_acceptedPairs infos
  · have hpairs : (acceptedPairs infos).Perm (acceptedPairs infos2) :=
      hperm.filterMap _
    have h1 : List.insertionSort pairLe (acceptedPairs infos) =
        List.insertionSort pairLe (acceptedPairs infos2) :=
      List.eq_of_perm_of_sorted
        (((List.perm_insertionSort pairLe _).trans hpairs).trans
          (List.perm_insertionSort pairLe _).symm)
        hsorted (List.sorted_insertionSort pairLe _)
    unfold progressPayload
    rw [h1]

/-- Witness for C7 on a concrete two-download ledger given in both arrival
orders: the payload is `[10, 30]` (sorted by fileIdx, not arrival) either
way. -/
theorem C7_progress_payload_witness :
    progressPayload
      [(1, { fileIdx := 2, name := "x", startCallback := none
             cancelCallback := some 4, progress := 30 }),
       (2, { fileIdx := 1, name := "y", startCallback := none
             cancelCallback := some 5, progress := 10 })] = [10, 30] ∧
    progressPayload
      [(1, { fileIdx := 2, name := "x", startCallback := none
             cancelCallback := some 4, progress := 30 }),
       (2, { fileIdx := 1, name := "y", startCallback := none
             cancelCallback := some 5, progress := 10 })] =
      progressPayload
      [(2, { fileIdx := 1, name := "y", startCallback := none
             cancelCallback := some 5, progress := 10 }),
       (1, { fileIdx := 2, name := "x", startCallback := none
             cancelCallback := some 4, progress := 30 })] := by
  obtain ⟨h1, h2, h3, h4, h5⟩ := C7_progress_payload
    [(1, { fileIdx := 2, name := "x", startCallback := none
           cancelCallback := some 4, progress := 30 }),
     (2, { fileIdx := 1, name := "y", startCallback := none
           cancelCallback := some 5, progress := 10 })]
    [(2, { fileIdx := 1, name := "y", startCallback := none
           cancelCallback := some 5, progress := 10 }),
     (1, { fileIdx := 2, name := "x", startCallback := none
           cancelCallback := some 4, progress := 30 })]
    (List.Perm.swap _ _ _)
  exact ⟨by decide, h5⟩

/-! ### FIFO acceptance machinery (C2) -/

theorem runEvents_cons (s s1 s2 : DMState) (ev : DMEv) (rest : List DMEv)
    (outs1 outs2 : List DMOut) (h1 : dmStep s ev = some (s1, outs1))
    (h2 : runEvents s1 rest = some (s2, outs2)) :
    runEvents s (ev :: rest) = some (s2, outs1 ++ outs2) := by
  simp only [runEvents, h1, h2]

theorem runEvents_append (s s1 s2 : DMState) (l1 l2 : List DMEv)
    (outs1 outs2 : List DMOut) (h1 : runEvents s l1 = some (s1, outs1))
    (h2 : runEvents s1 l2 = some (s2, outs2)) :
    runEvents s (l1 ++ l2) = some (s2, outs1 ++ outs2) := by
  induction l1 generalizing s outs1 with
  | nil =>
    simp only [runEvents] at h1
    have h3 := Option.some.inj h1
    injection h3 with ha hb
    subst ha
    subst hb
    simpa using h2
  | cons ev rest ih =>
    simp only [runEvents] at h1
    rcases hstep : dmStep s ev with _ | pr
    · rw [hstep] at h1
      exact Option.noConfusion h1
    · obtain ⟨sa, outsa⟩ := pr
      simp only [hstep] at h1
      rcases hrun : runEvents sa rest with _ | pr2
      · rw [hrun] at h1
        exact Option.noConfusion h1
      · obtain ⟨sb, outsb⟩ := pr2
        simp only [hrun, Option.some.injEq] at h1
        injection h1 with ha hb
        subst ha
        rw [List.cons_append]
        rw [runEvents_cons s sa s2 ev (rest ++ l2) outsa (outsb ++ outs2)
          hstep (ih sa outsb hrun)]
        rw [← hb, List.append_assoc]

theorem onBeforeDownload_fresh (s : DMState) (id : Nat) (nm : String)
    (cb : Nat) (hf : mapFind s.infos id = none) :
    onBeforeDownload s id nm cb =
      some ({ infos := mapInsert id ({ fileIdx := s.nextFileIdx, name := nm, startCallback := some cb, cancelCallback := none, progress := 0 }) s.infos, pending := s.pending ++ [id], nextFileIdx := s.nextFileIdx + 1 },
            [DMOut.pendingCount (s.pending ++ [id]).length]) := by
  unfold onBeforeDownload
  simp [hf]

theorem acceptPendingDownload_front (s : DMState) (id : Nat)
    (restIds : List Nat) (info : DownloadInfo) (cb : Nat)
    (hp : s.pending = id :: restIds) (hf : mapFind s.infos id = some info)
    (hsc : info.startCallback = some cb) :
    acceptPendingDownload s =
      some ({ s with infos := mapInsert id ({ info with startCallback := none }) s.infos, pending := restIds },
            [DMOut.pendingCount restIds.length,
             DMOut.continueStart cb (getFilePath info.fileIdx),
             DMOut.progressList (progressPayload (mapInsert id ({ info with startCallback := none }) s.infos))]) := by
  unfold acceptPendingDownload
  rw [hp]
  simp only [hf, hsc]

/-- Running a block of download-begin events registers each download in
order: the pending queue is extended with the ids in event order, the k-th
begin's entry stores its start capability token and the k-th fresh
`fileIdx`, other keys are untouched, and no `Continue` invocation occurs. -/
theorem runEvents_begins (bs : List (Nat × String × Nat)) (s : DMState)
    (hnodup : (bs.map fun b => b.1).Nodup)
    (hfresh : ∀ b ∈ bs, mapFind s.infos b.1 = none) :
    ∃ s' outs,
      runEvents s (bs.map fun b => DMEv.beginDl b.1 b.2.1 b.2.2) =
        some (s', outs) ∧
      s'.pending = s.pending ++ bs.map (fun b => b.1) ∧
      outs.filterMap continueOut = [] ∧
      (∀ t ∈ beginsTodo s.nextFileIdx bs, ∃ info,
        mapFind s'.infos t.1 = some info ∧
        info.startCallback = some t.2.1 ∧ info.fileIdx = t.2.2) ∧
      (∀ k, (∀ b ∈ bs, k ≠ b.1) → mapFind s'.infos k = mapFind s.infos k) := by
  induction bs generalizing s with
  | nil =>
    refine ⟨s, [], rfl, by simp, rfl, ?_, fun k _ => rfl⟩
    intro t ht
    exact absurd ht (List.not_mem_nil t)
  | cons b rest ih =>
    simp only [List.map_cons, List.nodup_cons] at hnodup
    have hb : mapFind s.infos b.1 = none := hfresh b (List.mem_cons_self b rest)
    have hstep : dmStep s (DMEv.beginDl b.1 b.2.1 b.2.2) =
        some ({ infos := mapInsert b.1 ({ fileIdx := s.nextFileIdx, name := b.2.1, startCallback := some b.2.2, cancelCallback := none, progress := 0 }) s.infos, pending := s.pending ++ [b.1], nextFileIdx := s.nextFileIdx + 1 },
              [DMOut.pendingCount (s.pending ++ [b.1]).length]) := by
      simp only [dmStep]
      exact onBeforeDownload_fresh s b.1 b.2.1 b.2.2 hb
    have hfresh1 : ∀ b' ∈ rest,
        mapFind (mapInsert b.1 ({ fileIdx := s.nextFileIdx, name := b.2.1, startCallback := some b.2.2, cancelCallback := none, progress := 0 }) s.infos) b'.1 = none := by
      intro b' hb'
      rw [mapFind_mapInsert]
      have hne : ¬b'.1 = b.1 := by
        intro hh
        exact hnodup.1 (hh ▸ List.mem_map_of_mem (fun x => x.1) hb')
      rw [if_neg hne]
      exact hfresh b' (List.mem_cons_of_mem b hb')
    obtain ⟨s', outs', hrun, hpend, hcont, htodo, hpres⟩ :=
      ih { infos := mapInsert b.1 ({ fileIdx := s.nextFileIdx, name := b.2.1, startCallback := some b.2.2, cancelCallback := none, progress := 0 }) s.infos, pending := s.pending ++ [b.1], nextFileIdx := s.nextFileIdx + 1 }
        hnodup.2 hfresh1
    refine ⟨s', [DMOut.pendingCount (s.pending ++ [b.1]).length] ++ outs',
      runEvents_cons _ _ _ _ _ _ _ hstep hrun, ?_, ?_, ?_, ?_⟩
    · rw [hpend]
      simp [List.append_assoc]
    · rw [List.filterMap_append, hcont]
      rfl
    · intro t ht
      rcases List.mem_cons.1 ht with ht1 | ht1
      · subst ht1
        have hp1 : mapFind s'.infos b.1 =
            mapFind (mapInsert b.1 ({ fileIdx := s.nextFileIdx, name := b.2.1, startCallback := some b.2.2, cancelCallback := none, progress := 0 }) s.infos) b.1 := by
          apply hpres
          intro b' hb' hh
          exact hnodup.1 (hh ▸ List.mem_map_of_mem (fun x => x.1) hb')
        rw [hp1, mapFind_mapInsert, if_pos rfl]
        exact ⟨_, rfl, rfl, rfl⟩
      · exact htodo t ht1
    · intro k hk
      have h1 : mapFind s'.infos k =
          mapFind (mapInsert b.1 ({ fileIdx := s.nextFileIdx, name := b.2.1, startCallback := some b.2.2, cancelCallback := none, progress := 0 }) s.infos) k := by
        apply hpres
        intro b' hb'
        exact hk b' (List.mem_cons_of_mem b hb')
      rw [h1, mapFind_mapInsert, if_neg (hk b (List.mem_cons_self b rest))]

/-- Running one accept per queued download pops the queue front-to-back:
the sequence of `Continue` invocations is exactly one per registered
download, in registration order, each carrying that download's start
capability token and the file path derived from its `fileIdx`. -/
theorem runEvents_accepts (todo : List (Nat × Nat × Nat)) (s : DMState)
    (hnodup : (todo.map fun t => t.1).Nodup)
    (hpend : s.pending = todo.map fun t => t.1)
    (hinfo : ∀ t ∈ todo, ∃ info, mapFind s.infos t.1 = some info ∧
      info.startCallback = some t.2.1 ∧ info.fileIdx = t.2.2) :
    ∃ s' outs,
      runEvents s (List.replicate todo.length DMEv.accept) = some (s', outs) ∧
      outs.filterMap continueOut = todo.map fun t => (t.2.1, getFilePath t.2.2) := by
  induction todo generalizing s with
  | nil => exact ⟨s, [], rfl, rfl⟩
  | cons t rest ih =>
    simp only [List.map_cons, List.nodup_cons] at hnodup
    obtain ⟨info, hf, hsc, hfi⟩ := hinfo t (List.mem_cons_self t rest)
    simp only [List.map_cons] at hpend
    have hstep : dmStep s DMEv.accept =
        some ({ s with infos := mapInsert t.1 ({ info with startCallback := none }) s.infos, pending := rest.map fun r => r.1 },
              [DMOut.pendingCount (rest.map fun r => r.1).length,
               DMOut.continueStart t.2.1 (getFilePath info.fileIdx),
               DMOut.progressList (progressPayload (mapInsert t.1 ({ info with startCallback := none }) s.infos))]) := by
      simp only [dmStep]
      exact acceptPendingDownload_front s t.1 (rest.map fun r => r.1) info t.2.1
        hpend hf hsc
    have hinfo1 : ∀ t' ∈ rest, ∃ info',
        mapFind (mapInsert t.1 ({ info with startCallback := none }) s.infos) t'.1 = some info' ∧
        info'.startCallback = some t'.2.1 ∧ info'.fileIdx = t'.2.2 := by
      intro t' ht'
      obtain ⟨info', hf', hsc', hfi'⟩ := hinfo t' (List.mem_cons_of_mem t ht')
      refine ⟨info', ?_, hsc', hfi'⟩
      rw [mapFind_mapInsert]
      have hne : ¬t'.1 = t.1 := by
        intro hh
        exact hnodup.1 (hh ▸ List.mem_map_of_mem (fun x => x.1) ht')
      rw [if_neg hne]
      exact hf'
    obtain ⟨s', outs', hrun, hcont⟩ :=
      ih { s with infos := mapInsert t.1 ({ info with startCallback := none }) s.infos, pending := rest.map fun r => r.1 }
        hnodup.2 rfl hinfo1
    refine ⟨s',
      [DMOut.pendingCount (rest.map fun r => r.1).length,
       DMOut.continueStart t.2.1 (getFilePath info.fileIdx),
       DMOut.progressList (progressPayload (mapInsert t.1 ({ info with startCallback := none }) s.infos))] ++ outs',
      ?_, ?_⟩
    · rw [List.length_cons, List.replicate_succ]
      exact runEvents_cons _ _ _ _ _ _ _ hstep hrun
    · rw [List.filterMap_append, hcont, hfi]
      rfl

theorem beginsTodo_map_fst (i0 : Nat) (bs : List (Nat × String × Nat)) :
    (beginsTodo i0 bs).map (fun t => t.1) = bs.map fun b => b.1 := by
  induction bs generalizing i0 with
  | nil => rfl
  | cons b rest ih =>
    simp only [beginsTodo, List.map_cons, ih]

theorem beginsTodo_length (i0 : Nat) (bs : List (Nat × String × Nat)) :
    (beginsTodo i0 bs).length = bs.length := by
  induction bs generalizing i0 with
  | nil => rfl
  | cons b rest ih =>
    simp only [beginsTodo, List.length_cons, ih]

theorem beginsTodo_getElem (i0 k : Nat) (bs : List (Nat × String × Nat)) :
    (beginsTodo i0 bs)[k]? = (bs[k]?).map fun b => (b.1, b.2.2, i0 + k) := by
  induction bs generalizing i0 k with
  | nil => simp [beginsTodo]
  | cons b rest ih =>
    cases k with
    | zero => simp [beginsTodo]
    | succ k =>
      simp only [beginsTodo, List.getElem?_cons_succ]
      rw [ih (i0 + 1) k]
      have harith : i0 + 1 + k = i0 + (k + 1) := by omega
      rw [harith]

/-- C2: for any block of N download-begin events (with distinct ids)
followed by N accept calls starting from the fresh ledger, the run
succeeds (no `REQUIRE` fires), there are exactly N `Continue` invocations,
and the k-th one carries exactly the start capability registered by the
k-th begin event together with the deterministic file path derived from
that download's `fileIdx` (the k-th fresh index, `1 + k`). -/
theorem C2_fifo_acceptance (bs : List (Nat × String × Nat))
    (hnodup : (bs.map fun b => b.1).Nodup) :
    ∃ s' outs,
      runEvents initDMState
        ((bs.map fun b => DMEv.beginDl b.1 b.2.1 b.2.2) ++
          List.replicate bs.length DMEv.accept) = some (s', outs) ∧
      (outs.filterMap continueOut).length = bs.length ∧
      ∀ k b, bs[k]? = some b →
        (outs.filterMap continueOut)[k]? = some (b.2.2, getFilePath (1 + k)) := by
  obtain ⟨s1, outs1, hrun1, hpend1, hcont1, htodo1, hpres1⟩ :=
    runEvents_begins bs initDMState hnodup (fun b _ => rfl)
  have hpend1' : s1.pending = (beginsTodo 1 bs).map fun t => t.1 := by
    rw [hpend1, beginsTodo_map_fst]
    rfl
  have hnodup1 : ((beginsTodo 1 bs).map fun t => t.1).Nodup := by
    rw [beginsTodo_map_fst]
    exact hnodup
  obtain ⟨s2, outs2, hrun2, hcont2⟩ :=
    runEvents_accepts (beginsTodo 1 bs) s1 hnodup1 hpend1' htodo1
  rw [beginsTodo_length] at hrun2
  refine ⟨s2, outs1 ++ outs2,
    runEvents_append initDMState s1 s2 _ _ outs1 outs2 hrun1 hrun2, ?_, ?_⟩
  · rw [List.filterMap_append, hcont1, List.nil_append, hcont2,
      List.length_map, beginsTodo_length]
  · intro k b hkb
    rw [List.filterMap_append, hcont1, List.nil_append, hcont2,
      List.getElem?_map, beginsTodo_getElem, hkb]
    rfl

/-- Witness for C2 on two concrete begin events (ids 5 and 3, capability
tokens 100 and 200) followed by two accepts: the trace's `Continue`
invocations are exactly the two registered capabilities in registration
order, each with its own download's file path. -/
theorem C2_fifo_acceptance_witness :
    (runEvents initDMState
        [DMEv.beginDl 5 "a.bin" 100, DMEv.beginDl 3 "b.bin" 200,
         DMEv.accept, DMEv.accept]).map
        (fun r => r.2.filterMap continueOut) =
      some [(100, getFilePath 1), (200, getFilePath 2)] := by
  obtain ⟨s', outs, hrun, hlen, hk⟩ :=
    C2_fifo_acceptance [(5, "a.bin", 100), (3, "b.bin", 200)] (by decide)
  have hev : (([(5, "a.bin", 100), (3, "b.bin", 200)] :
        List (Nat × String × Nat)).map
        (fun b => DMEv.beginDl b.1 b.2.1 b.2.2)) ++
      List.replicate ([(5, "a.bin", 100), (3, "b.bin", 200)] :
        List (Nat × String × Nat)).length DMEv.accept =
      [DMEv.beginDl 5 "a.bin" 100, DMEv.beginDl 3 "b.bin" 200,
       DMEv.accept, DMEv.accept] := rfl
  rw [hev] at hrun
  rw [hrun]
  have hout : outs.filterMap continueOut =
      [(100, getFilePath 1), (200, getFilePath 2)] := by
    apply List.ext_get?
    intro n
    rw [List.get?_eq_getElem?, List.get?_eq_getElem?]
    rcases n with _ | ⟨_ | n⟩
    · rw [hk 0 (5, "a.bin", 100) rfl]
      rfl
    · rw [hk 1 (3, "b.bin", 200) rfl]
      rfl
    · rw [List.getElem?_eq_none (le_trans (le_of_eq hlen) (Nat.le_add_left 2 n)),
        List.getElem?_eq_none (Nat.le_add_left 2 n)]
  exact congrArg some hout

end Browservice
